import Mathlib

/-!
# Verification of the tower-def-rs map pipeline (`src/states.rs`)

Shallow embedding of the tile-metadata classifier, the walkability-grid
builder and the exhaustive simple-path enumerator from `src/states.rs`,
together with proofs of the specification claims about them.

Conventions of the embedding:
* Rust `usize`/`u8`/`u32` values are `Nat` (all involved quantities are small
  and no wrapping arithmetic occurs in the translated code); `isize`
  computations in `gather_paths` are `Int`.
* `Vec<Vec<u8>>` is `List (List Nat)`.  A Rust indexing expression that would
  panic out of bounds is modelled either with `List.getD` (at places where the
  surrounding theorems keep the index in bounds) or with an `Option` result
  (where the panic itself is the subject of a claim).
* A Rust function that can panic (`assert!`, `unwrap`) is modelled with
  `Option`, `none` being the panic/abort outcome.
-/

namespace TowerDef

/-- The `Coord` type (defined outside `states.rs`, in the crate's `super` module).
Modelled from the spec: an integer pair `(x, y)` identifying a grid cell,
compared by value; `Coord::new(x, y)` is the constructor. -/
structure Coord where
  x : Nat
  y : Nat
deriving DecidableEq

/-- Constructor `Coord::new`. -/
def Coord.new (x y : Nat) : Coord := ⟨x, y⟩

/-- The walkability grid `road_map : Vec<Vec<u8>>`.  The code indexes it as
`road_map[x][y]`. -/
abbrev RoadMap := List (List Nat)

/-- Reading `m[x][y]`, total model: out-of-bounds reads default to `0`.
Every theorem that relies on this read keeps `(x, y)` in bounds, matching the
panic-freedom of the source at those call sites. -/
def mapGet (m : RoadMap) (x y : Nat) : Nat := (m.getD x []).getD y 0

/-- The `DIRECTIONS` table of `gather_paths`: offset in `x`, offset in `y`,
direction bit (in source order: up `(0,1,0b0001)`, down `(0,-1,0b0100)`,
right `(1,0,0b0010)`, left `(-1,0,0b1000)`). -/
def DIRECTIONS : List (Int × Int × Nat) :=
  [(0, 1, 1), (0, -1, 4), (1, 0, 2), (-1, 0, 8)]

/-- Cell `c` is inside the bounds checked by `gather_paths`:
`c.x < map.len()` and `c.y < map[0].len()`. -/
def inBn (m : RoadMap) (c : Coord) : Bool :=
  decide (c.x < m.length) && decide (c.y < (m.getD 0 []).length)

/-- One legal move of the enumerator: `b` is reachable from `a` in a single
step, i.e. some entry of `DIRECTIONS` displaces `a` to `b`, `b` passes the
bounds checks, and the direction bit is set in the mask of the source cell
`a`.  This is exactly the neighbour condition of `gather_paths` without the
cycle check. -/
def canStep (m : RoadMap) (a b : Coord) : Bool :=
  DIRECTIONS.any (fun off =>
    decide ((b.x : Int) = (a.x : Int) + off.1) &&
    decide ((b.y : Int) = (a.y : Int) + off.2.1) &&
    decide (b.x < m.length) &&
    decide (b.y < (m.getD 0 []).length) &&
    decide (0 < (mapGet m a.x a.y &&& off.2.2)))

/-- Relation form of `canStep`, for `Chain'` and reachability statements. -/
def LegalStep (m : RoadMap) (a b : Coord) : Prop := canStep m a b = true

/-- The neighbour loop of `gather_paths` (lines 247--265): for each entry of
`DIRECTIONS`, compute `new_c = (origin.x + off.0, origin.y + off.1)` over
`isize`, keep it when it is non-negative, within `map.len()`/`map[0].len()`,
the mask of the origin cell has the direction bit set, and the resulting
coordinate is not already in the current path. -/
def neighbours (path : List Coord) (origin : Coord) (m : RoadMap) : List Coord :=
  DIRECTIONS.filterMap (fun off =>
    if 0 ≤ (origin.x : Int) + off.1 ∧ 0 ≤ (origin.y : Int) + off.2.1 ∧
        ((origin.x : Int) + off.1).toNat < m.length ∧
        ((origin.y : Int) + off.2.1).toNat < (m.getD 0 []).length ∧
        0 < (mapGet m origin.x origin.y &&& off.2.2) then
      if Coord.new ((origin.x : Int) + off.1).toNat ((origin.y : Int) + off.2.1).toNat ∈ path
      then none
      else some (Coord.new ((origin.x : Int) + off.1).toNat ((origin.y : Int) + off.2.1).toNat)
    else none)

theorem mem_neighbours {m : RoadMap} {path : List Coord} {origin n : Coord} :
    n ∈ neighbours path origin m ↔ (canStep m origin n = true ∧ n ∉ path) := by
  unfold neighbours canStep
  rw [List.mem_filterMap, List.any_eq_true]
  constructor
  · rintro ⟨off, hoff, hf⟩
    split at hf
    · rename_i hcond
      obtain ⟨h1, h2, h3, h4, h5⟩ := hcond
      split at hf
      · exact absurd hf (by simp)
      · rename_i hnp
        obtain rfl : Coord.new ((origin.x : Int) + off.1).toNat
            ((origin.y : Int) + off.2.1).toNat = n := by
          simpa using hf
        refine ⟨⟨off, hoff, ?_⟩, hnp⟩
        simp only [Bool.and_eq_true, decide_eq_true_eq]
        refine ⟨⟨⟨⟨?_, ?_⟩, h3⟩, h4⟩, h5⟩
        · simp [Coord.new, Int.toNat_of_nonneg h1]
        · simp [Coord.new, Int.toNat_of_nonneg h2]
    · exact absurd hf (by simp)
  · rintro ⟨⟨off, hoff, hp⟩, hnp⟩
    simp only [Bool.and_eq_true, decide_eq_true_eq] at hp
    obtain ⟨⟨⟨⟨hx, hy⟩, hbx⟩, hby⟩, hmask⟩ := hp
    refine ⟨off, hoff, ?_⟩
    have hxe : ((origin.x : Int) + off.1).toNat = n.x := by omega
    have hye : ((origin.y : Int) + off.2.1).toNat = n.y := by omega
    have hc : Coord.new ((origin.x : Int) + off.1).toNat
        ((origin.y : Int) + off.2.1).toNat = n := by
      simp [Coord.new, hxe, hye]
    rw [if_pos ⟨by omega, by omega, by rwa [hxe], by rwa [hye], hmask⟩, hc,
      if_neg hnp]

theorem canStep_inBn {m : RoadMap} {a b : Coord} (h : canStep m a b = true) :
    inBn m b = true := by
  unfold canStep at h
  rw [List.any_eq_true] at h
  obtain ⟨off, _, hp⟩ := h
  simp only [Bool.and_eq_true, decide_eq_true_eq] at hp
  simp only [inBn, Bool.and_eq_true, decide_eq_true_eq]
  exact ⟨hp.1.1.2, hp.1.2⟩

/-- All coordinates that pass the bounds checks of the enumerator, as a
finite set. -/
def boundedCells (m : RoadMap) : Finset Coord :=
  (Finset.range m.length ×ˢ Finset.range (m.getD 0 []).length).image
    (fun p => Coord.new p.1 p.2)

theorem card_filter_inBn_le (m : RoadMap) (s : Finset Coord) :
    (s.filter (fun c => inBn m c = true)).card ≤
      m.length * (m.getD 0 []).length := by
  have hsub : s.filter (fun c => inBn m c = true) ⊆ boundedCells m := by
    intro c hc
    rw [Finset.mem_filter] at hc
    have hb := hc.2
    simp only [inBn, Bool.and_eq_true, decide_eq_true_eq] at hb
    simp only [boundedCells, Finset.mem_image, Finset.mem_product,
      Finset.mem_range]
    exact ⟨(c.x, c.y), ⟨hb.1, hb.2⟩, rfl⟩
  calc (s.filter (fun c => inBn m c = true)).card
      ≤ (boundedCells m).card := Finset.card_le_card hsub
    _ ≤ ((Finset.range m.length) ×ˢ (Finset.range (m.getD 0 []).length)).card :=
        Finset.card_image_le
    _ = m.length * (m.getD 0 []).length := by
        rw [Finset.card_product, Finset.card_range, Finset.card_range]

/-- Termination measure for `gather_paths`: the number of in-bounds cells not
yet on the current path, plus one. -/
def pathMeasure (m : RoadMap) (p : List Coord) : Nat :=
  m.length * (m.getD 0 []).length + 1 -
    (p.toFinset.filter (fun c => inBn m c = true)).card

theorem pathMeasure_pos (m : RoadMap) (p : List Coord) : 0 < pathMeasure m p := by
  have := card_filter_inBn_le m p.toFinset
  unfold pathMeasure
  omega

theorem pathMeasure_append_lt (m : RoadMap) (p : List Coord) (n : Coord)
    (hb : inBn m n = true) (hnp : n ∉ p) :
    pathMeasure m (p ++ [n]) < pathMeasure m p := by
  unfold pathMeasure
  have h1 : (p ++ [n]).toFinset = insert n p.toFinset := by
    rw [List.toFinset_append, Finset.insert_eq, Finset.union_comm]
    rfl
  rw [h1, Finset.filter_insert, if_pos hb,
    Finset.card_insert_of_not_mem (by simp [hnp])]
  have h2 := card_filter_inBn_le m p.toFinset
  omega

/-- Function `gather_paths` (lines 234--276): exhaustive recursive enumeration of
simple paths from the last element of `path` to `dest`.  The `none` branch of
`path.getLast?` models the `unwrap` panic on an empty path, which the entry
call (`path = vec![start_coord]`) never reaches; termination is by
`pathMeasure`, since every recursive call appends a fresh in-bounds
coordinate. -/
def gather_paths (path : List Coord) (dest : Coord) (m : RoadMap) :
    List (List Coord) :=
  match path.getLast? with
  | none => []
  | some origin =>
    if origin = dest then
      [path]
    else
      ((neighbours path origin m).attach.map (fun n =>
        let ps := gather_paths (path ++ [n.1]) dest m
        if 0 < path.length then ps else [])).flatten
termination_by pathMeasure m path
decreasing_by
  exact pathMeasure_append_lt m path n.1
    (canStep_inBn (mem_neighbours.mp n.2).1) (mem_neighbours.mp n.2).2

/-- Soundness invariant of the recursion: every enumerated path extends the
current path, ends at the destination, repeats no coordinate, stays in bounds
if the current path does, and is a chain of legal moves if the current path
is.  Stated with an explicit bound `n` on the termination measure to drive the
induction. -/
theorem gather_paths_sound (m : RoadMap) (dest : Coord) :
    ∀ n path, pathMeasure m path ≤ n → path.Nodup →
      ∀ q ∈ gather_paths path dest m,
        (∃ r, q = path ++ r) ∧ q.getLast? = some dest ∧ q.Nodup ∧
        ((∀ c ∈ path, inBn m c = true) → ∀ c ∈ q, inBn m c = true) ∧
        (List.Chain' (LegalStep m) path → List.Chain' (LegalStep m) q) := by
  intro n
  induction n with
  | zero =>
    intro path hle
    exact absurd hle (by have := pathMeasure_pos m path; omega)
  | succ n ih =>
    intro path hle hnd q hq
    rw [gather_paths.eq_def] at hq
    cases hl : path.getLast? with
    | none => rw [hl] at hq; simp at hq
    | some origin =>
      simp only [hl] at hq
      by_cases hod : origin = dest
      · rw [if_pos hod] at hq
        obtain rfl : q = path := by simpa using hq
        subst hod
        exact ⟨⟨[], by simp⟩, hl, hnd, fun h => h, fun h => h⟩
      · rw [if_neg hod] at hq
        simp only [List.mem_flatten, List.mem_map, List.mem_attach, true_and,
          Subtype.exists] at hq
        obtain ⟨_, ⟨nb, hnb, rfl⟩, hq⟩ := hq
        have hpne : path ≠ [] := by
          intro h; subst h; simp at hl
        have hlen : 0 < path.length := List.length_pos.mpr hpne
        rw [if_pos hlen] at hq
        obtain ⟨hstep, hnp⟩ := mem_neighbours.mp hnb
        have hmeas : pathMeasure m (path ++ [nb]) ≤ n := by
          have := pathMeasure_append_lt m path nb (canStep_inBn hstep) hnp
          omega
        have hnd' : (path ++ [nb]).Nodup := by
          simp [List.nodup_append, hnd, hnp]
        obtain ⟨⟨r, hr⟩, hlast, hndq, hinb, hch⟩ :=
          ih (path ++ [nb]) hmeas hnd' q hq
        refine ⟨⟨nb :: r, by simpa using hr⟩, hlast, hndq, ?_, ?_⟩
        · intro hbp c hc
          refine hinb ?_ c hc
          intro c' hc'
          rcases List.mem_append.mp hc' with h | h
          · exact hbp c' h
          · obtain rfl : c' = nb := by simpa using h
            exact canStep_inBn hstep
        · intro hchp
          refine hch ?_
          rw [List.chain'_append]
          refine ⟨hchp, List.chain'_singleton nb, ?_⟩
          intro x hx y hy
          rw [hl] at hx
          obtain rfl : origin = x := by simpa using hx
          obtain rfl : nb = y := by simpa using hy
          exact hstep

theorem chain'_head_last_rtg {α : Type} (R : α → α → Prop) :
    ∀ (l : List α) (a b : α), List.Chain' R l → l.head? = some a →
      l.getLast? = some b → Relation.ReflTransGen R a b := by
  intro l
  induction l with
  | nil => intro a b _ h; simp at h
  | cons x t ih =>
    intro a b hch hh hl
    have hxa : x = a := by simpa using hh
    subst hxa
    cases t with
    | nil =>
      have hxb : x = b := by simpa using hl
      subst hxb
      exact Relation.ReflTransGen.refl
    | cons y t2 =>
      rw [List.chain'_cons] at hch
      exact Relation.ReflTransGen.head hch.1
        (ih y b hch.2 rfl (by rwa [List.getLast?_cons_cons] at hl))

/-- Evaluation of the base case of the recursion: a singleton path already at
the destination is returned as the only path. -/
theorem gather_paths_self (m : RoadMap) (c : Coord) :
    gather_paths [c] c m = [[c]] := by
  rw [gather_paths.eq_def]
  simp

/-- C1: every path in the list returned by the path enumerator (entered, as in
`load_map`, with the singleton start path) starts at the start coordinate,
ends at the destination coordinate, contains no repeated coordinate, and each
consecutive pair of coordinates is grid-adjacent via a move permitted by the
direction mask of the earlier cell of the pair (`LegalStep`).  The start
coordinate is assumed in bounds, as it is in `load_map` where it is read off a
grid cell. -/
theorem c1_path_validity (m : RoadMap) (start dest : Coord)
    (hb : inBn m start = true) :
    ∀ q ∈ gather_paths [start] dest m,
      q.head? = some start ∧ q.getLast? = some dest ∧ q.Nodup ∧
        List.Chain' (LegalStep m) q := by
  intro q hq
  obtain ⟨⟨r, hr⟩, hlast, hnd, _, hch⟩ :=
    gather_paths_sound m dest (pathMeasure m [start]) [start] le_rfl
      (List.nodup_singleton start) q hq
  refine ⟨?_, hlast, hnd, hch (List.chain'_singleton start)⟩
  subst hr
  rfl

theorem c1_path_validity_witness :
    [Coord.new 0 0] ∈ gather_paths [Coord.new 0 0] (Coord.new 0 0) [[1]] ∧
      ([Coord.new 0 0].head? = some (Coord.new 0 0) ∧
        [Coord.new 0 0].getLast? = some (Coord.new 0 0) ∧
        [Coord.new 0 0].Nodup ∧
        List.Chain' (LegalStep [[1]]) [Coord.new 0 0]) :=
  have hmem : [Coord.new 0 0] ∈ gather_paths [Coord.new 0 0] (Coord.new 0 0) [[1]] := by
    rw [gather_paths_self]
    exact List.mem_singleton.mpr rfl
  ⟨hmem, c1_path_validity [[1]] (Coord.new 0 0) (Coord.new 0 0) (by decide)
    [Coord.new 0 0] hmem⟩

theorem directions_disp_inj :
    ∀ o1 ∈ DIRECTIONS, ∀ o2 ∈ DIRECTIONS,
      o1.1 = o2.1 → o1.2.1 = o2.2.1 → o1 = o2 := by
  decide

/-- C4: in the path enumerator, for a cell `origin` of the grid and a
direction entry `off` of the `DIRECTIONS` table (up = bit0, down = bit2,
right = bit1, left = bit3, paired with their coordinate offsets), the
displaced coordinate `c` is taken as a move exactly when the origin's mask
has the direction bit set, `c` is within the grid bounds, and `c` does not
already appear in the current path. -/
theorem c4_move_iff (m : RoadMap) (path : List Coord) (origin c : Coord)
    (off : Int × Int × Nat) (hoff : off ∈ DIRECTIONS)
    (ho : inBn m origin = true)
    (hx : (c.x : Int) = (origin.x : Int) + off.1)
    (hy : (c.y : Int) = (origin.y : Int) + off.2.1) :
    (c ∈ neighbours path origin m) ↔
      (0 < (mapGet m origin.x origin.y &&& off.2.2) ∧ c.x < m.length ∧
        c.y < (m.getD 0 []).length ∧ c ∉ path) := by
  rw [mem_neighbours]
  constructor
  · rintro ⟨hstep, hnp⟩
    unfold canStep at hstep
    rw [List.any_eq_true] at hstep
    obtain ⟨off', hoff', hp⟩ := hstep
    simp only [Bool.and_eq_true, decide_eq_true_eq] at hp
    obtain ⟨⟨⟨⟨hx', hy'⟩, hbx⟩, hby⟩, hmask⟩ := hp
    have he : off' = off :=
      directions_disp_inj off' hoff' off hoff (by omega) (by omega)
    subst he
    exact ⟨hmask, hbx, hby, hnp⟩
  · rintro ⟨hmask, hbx, hby, hnp⟩
    refine ⟨?_, hnp⟩
    unfold canStep
    rw [List.any_eq_true]
    refine ⟨off, hoff, ?_⟩
    simp only [Bool.and_eq_true, decide_eq_true_eq]
    exact ⟨⟨⟨⟨hx, hy⟩, hbx⟩, hby⟩, hmask⟩

theorem c4_move_iff_witness :
    (Coord.new 1 0 ∈ neighbours [Coord.new 0 0] (Coord.new 0 0) [[2], [0]]) ↔
      (0 < (mapGet [[2], [0]] 0 0 &&& 2) ∧ 1 < ([[2], [0]] : RoadMap).length ∧
        0 < (([[2], [0]] : RoadMap).getD 0 []).length ∧
        Coord.new 1 0 ∉ [Coord.new 0 0]) :=
  c4_move_iff [[2], [0]] [Coord.new 0 0] (Coord.new 0 0) (Coord.new 1 0)
    (1, 0, 2) (by decide) (by decide) (by decide) (by decide)

/-- C9: if the destination is not reachable from the start by any sequence of
legal moves, the enumerator returns the empty path set; being a total
function, it signals no error. -/
theorem c9_unreachable_empty (m : RoadMap) (start dest : Coord)
    (h : ¬ Relation.ReflTransGen (LegalStep m) start dest) :
    gather_paths [start] dest m = [] := by
  cases hres : gather_paths [start] dest m with
  | nil => rfl
  | cons q t =>
    exfalso
    have hq : q ∈ gather_paths [start] dest m := by
      rw [hres]
      exact List.mem_cons_self q t
    obtain ⟨⟨r, hr⟩, hlast, _, _, hch⟩ :=
      gather_paths_sound m dest (pathMeasure m [start]) [start] le_rfl
        (List.nodup_singleton start) q hq
    have hchain := hch (List.chain'_singleton start)
    have hhead : q.head? = some start := by
      subst hr
      rfl
    exact h (chain'_head_last_rtg (LegalStep m) q start dest hchain hhead hlast)

theorem mapGet_zero_grid (x y : Nat) : mapGet [[0]] x y = 0 := by
  unfold mapGet
  cases x with
  | zero =>
    cases y with
    | zero => rfl
    | succ k => rfl
  | succ k =>
    cases y with
    | zero => rfl
    | succ j => rfl

theorem canStep_zero_grid (a b : Coord) : canStep [[0]] a b = false := by
  simp [canStep, DIRECTIONS, mapGet_zero_grid]

theorem c9_unreachable_empty_witness :
    gather_paths [Coord.new 0 0] (Coord.new 0 1) [[0]] = [] :=
  c9_unreachable_empty [[0]] (Coord.new 0 0) (Coord.new 0 1) (by
    intro h
    rcases Relation.ReflTransGen.cases_head h with heq | ⟨c, hs, _⟩
    · exact absurd heq (by decide)
    · unfold LegalStep at hs
      rw [canStep_zero_grid] at hs
      exact Bool.false_ne_true hs)

/-- C10: the recursion of `gather_paths` terminates (in this embedding it is
defined by well-founded recursion on `pathMeasure`, the number of in-bounds
cells not yet on the path, which is at most the number of grid cells); for a
non-empty initial path of distinct in-bounds coordinates, every enumerated
path has length at most the number of grid cells, so the recursion depth is
bounded by the number of grid cells. -/
theorem c10_length_bound (m : RoadMap) (dest : Coord) (path : List Coord)
    (hne : path ≠ []) (hnd : path.Nodup)
    (hb : ∀ c ∈ path, inBn m c = true) :
    ∀ q ∈ gather_paths path dest m,
      q.length ≤ m.length * (m.getD 0 []).length := by
  intro q hq
  obtain ⟨_, _, hndq, hinb, _⟩ :=
    gather_paths_sound m dest (pathMeasure m path) path le_rfl hnd q hq
  have hq_inb := hinb hb
  have h1 : q.toFinset.filter (fun c => inBn m c = true) = q.toFinset :=
    Finset.filter_eq_self.mpr (fun c hc => hq_inb c (List.mem_toFinset.mp hc))
  have h2 := card_filter_inBn_le m q.toFinset
  rw [h1, List.toFinset_card_of_nodup hndq] at h2
  exact h2

theorem c10_length_bound_witness :
    [Coord.new 0 0] ∈ gather_paths [Coord.new 0 0] (Coord.new 0 0) [[1]] ∧
      [Coord.new 0 0].length ≤
        ([[1]] : RoadMap).length * (([[1]] : RoadMap).getD 0 []).length :=
  have hmem : [Coord.new 0 0] ∈ gather_paths [Coord.new 0 0] (Coord.new 0 0) [[1]] := by
    rw [gather_paths_self]
    exact List.mem_singleton.mpr rfl
  ⟨hmem, c10_length_bound [[1]] (Coord.new 0 0) [Coord.new 0 0] (by decide)
    (by decide) (by decide) [Coord.new 0 0] hmem⟩

/-- A tile custom property value (`tiled::PropertyValue`).  `load_map` only
ever distinguishes `BoolValue(b)` from everything else, so all non-boolean
variants are collapsed into `otherVal`. -/
inductive PropertyValue where
  | boolVal (b : Bool)
  | otherVal
deriving DecidableEq

/-- A tileset tile (`tiled::Tile`): its id and its custom-property map.  The
`HashMap<String, PropertyValue>` is modelled as an association list with
lookup-by-first-match (a `HashMap` holds each key at most once, so the order
is immaterial). -/
structure Tile where
  id : Nat
  properties : List (String × PropertyValue)
deriving DecidableEq

/-- Lookup `tile.properties.get(k)`. -/
def propsGet (props : List (String × PropertyValue)) (k : String) :
    Option PropertyValue :=
  props.lookup k

/-- Test `tile.properties.contains_key(k)`. -/
def propsContains (props : List (String × PropertyValue)) (k : String) : Bool :=
  (propsGet props k).isSome

/-- The direction-mask synthesis for a road tile (lines 75--88): start from
`0b0000` and set bit0/bit1/bit2/bit3 when the `up`/`right`/`down`/`left`
property is present with boolean value `true`. -/
def roadMask (props : List (String × PropertyValue)) : Nat :=
  let d1 := if propsGet props "up" = some (PropertyValue.boolVal true)
    then 0 ||| 1 else 0
  let d2 := if propsGet props "right" = some (PropertyValue.boolVal true)
    then d1 ||| 2 else d1
  let d3 := if propsGet props "down" = some (PropertyValue.boolVal true)
    then d2 ||| 4 else d2
  if propsGet props "left" = some (PropertyValue.boolVal true)
    then d3 ||| 8 else d3

/-- The accumulator of the classifier loop of `load_map` (lines 65--71):
road tile ids, construction-point tile ids, optional start/end tile id, and
the `HashMap` from road tile id to direction mask (modelled as an association
list whose most recent insertion is at the head, matching `HashMap::insert`
overwrite semantics under lookup-by-first-match). -/
structure ClassifierState where
  roads : List Nat
  construction_points : List Nat
  start_point : Option Nat
  end_point : Option Nat
  directions : List (Nat × Nat)
deriving DecidableEq

/-- One iteration of the classifier loop (lines 72--96): test the property
keys in the order `road`, `construction-point`, `start-point`, `end-point`;
the first key present determines the effect. -/
def classifyStep (s : ClassifierState) (t : Tile) : ClassifierState :=
  if propsContains t.properties "road" then
    { s with roads := s.roads ++ [t.id],
             directions := (t.id, roadMask t.properties) :: s.directions }
  else if propsContains t.properties "construction-point" then
    { s with construction_points := s.construction_points ++ [t.id] }
  else if propsContains t.properties "start-point" then
    { s with start_point := some t.id }
  else if propsContains t.properties "end-point" then
    { s with end_point := some t.id }
  else s

/-- The whole classifier pass over `map.tilesets[0].tiles`. -/
def classifyTiles (tiles : List Tile) : ClassifierState :=
  tiles.foldl classifyStep ⟨[], [], none, none, []⟩

/-- The two `assert!`/`unwrap` checks of lines 97--100: the load aborts
(`none`) unless the classifier found a start tile id and an end tile id. -/
def checkStartEnd (tiles : List Tile) : Option (Nat × Nat) :=
  match (classifyTiles tiles).start_point with
  | none => none
  | some sp =>
    match (classifyTiles tiles).end_point with
    | none => none
    | some ep => some (sp, ep)

/-- The core loop of Rust's `slice::binary_search` (the `base`/`size`
formulation): narrow `[base, base+size)` by halving until `size = 1`, then
compare the remaining element. -/
def binSearchGo (l : List Nat) (x : Nat) (base size : Nat) : Bool :=
  if h : 1 < size then
    let half := size / 2
    let mid := base + half
    let v := l.getD mid 0
    binSearchGo l x (if x < v then base else mid) (size - half)
  else
    decide (l.getD base 0 = x)
termination_by size
decreasing_by
  omega

/-- Test `roads.binary_search(&tile_id).is_ok()`. -/
def binSearchIsOk (l : List Nat) (x : Nat) : Bool :=
  if l.length = 0 then false else binSearchGo l x 0 l.length

theorem binSearchGo_mem (l : List Nat) (x : Nat) :
    ∀ size base, 0 < size → base + size ≤ l.length →
      binSearchGo l x base size = true → x ∈ l := by
  intro size
  induction size using Nat.strong_induction_on with
  | _ size ih =>
    intro base hpos hbound hrun
    rw [binSearchGo.eq_def] at hrun
    split at hrun
    · rename_i hsz
      refine ih (size - size / 2) (by omega) _ (by omega) ?_ hrun
      split
      · omega
      · omega
    · rw [decide_eq_true_eq] at hrun
      have hblt : base < l.length := by omega
      rw [List.getD_eq_getElem l 0 hblt] at hrun
      exact hrun ▸ List.getElem_mem hblt

theorem binSearchIsOk_mem {l : List Nat} {x : Nat}
    (h : binSearchIsOk l x = true) : x ∈ l := by
  unfold binSearchIsOk at h
  split at h
  · exact absurd h (by simp)
  · rename_i hlen
    exact binSearchGo_mem l x l.length 0 (by omega) (by omega) h

/-- Indexing `directions[&tile_id]`: the `HashMap` index.  In `load_map` it is only
reached when `tile_id` is a road id, in which case the key is present; a
missing key (which would panic in Rust) defaults to `0`. -/
def dirLookup (directions : List (Nat × Nat)) (k : Nat) : Nat :=
  (directions.lookup k).getD 0

/-- The grid-building accumulator of lines 103--105: the walkability grid
`road_map` (allocated as `vec![vec![0; map.width]; map.height]`, i.e. with
outer length `height` and inner length `width`) and the optional start/end
coordinates. -/
structure GridAcc where
  road_map : List (List Nat)
  start_coord : Option Coord
  end_coord : Option Coord
deriving DecidableEq

/-- The indexed assignment `road_map[x][y] = v`; `none` models the
out-of-bounds panic. -/
def roadMapSet (m : List (List Nat)) (x y v : Nat) :
    Option (List (List Nat)) :=
  if hx : x < m.length then
    let row := m.get ⟨x, hx⟩
    if y < row.length then some (m.set x (row.set y v)) else none
  else none

/-- Processing of one cell of a layer (lines 109--124): skip empty tiles
(`gid = 0`), otherwise classify `tile_id = gid - 1`: a road id writes its
direction mask, the start (resp. end) tile id records the coordinate and
writes the full mask `0b1111`.  Sprite/entity creation on the same lines is
rendering glue with no effect on the grid and is not modelled. -/
def processTile (cls : ClassifierState) (sp ep : Nat) (acc : GridAcc)
    (x y gid : Nat) : Option GridAcc :=
  if gid = 0 then some acc
  else
    let tile_id := gid - 1
    if binSearchIsOk cls.roads tile_id then
      (roadMapSet acc.road_map x y (dirLookup cls.directions tile_id)).map
        (fun rm => { acc with road_map := rm })
    else if tile_id = sp then
      (roadMapSet acc.road_map x y 15).map
        (fun rm => { acc with road_map := rm,
                              start_coord := some (Coord.new x y) })
    else if tile_id = ep then
      (roadMapSet acc.road_map x y 15).map
        (fun rm => { acc with road_map := rm,
                              end_coord := some (Coord.new x y) })
    else some acc

/-- Processing of one layer (lines 107--160): rows are iterated in reverse
(`layer.tiles.iter().rev().enumerate()`), so row index `y` counts from the
bottom row; cells of a row are iterated left to right. -/
def processLayer (cls : ClassifierState) (sp ep : Nat) (acc : GridAcc)
    (layer : List (List Nat)) : Option GridAcc :=
  layer.reverse.enum.foldlM (fun a yrow =>
    yrow.2.enum.foldlM (fun a2 xg => processTile cls sp ep a2 xg.1 yrow.1 xg.2) a)
    acc

/-- The whole grid-building pass of lines 103--161: allocate the grid filled
with `0`, then replay the layers in reverse declaration order
(`map.layers.iter().rev()`), with no already-assigned guard. -/
def buildGrid (cls : ClassifierState) (sp ep width height : Nat)
    (layers : List (List (List Nat))) : Option GridAcc :=
  layers.reverse.foldlM (fun acc layer => processLayer cls sp ep acc layer)
    ⟨List.replicate height (List.replicate width 0), none, none⟩

/-- The condition of the `road` branch of the classifier. -/
def isRoadKey (t : Tile) : Bool := propsContains t.properties "road"

/-- The condition under which the classifier chain reaches and takes the
`start-point` branch: no `road` key, no `construction-point` key, and a
`start-point` key. -/
def isStartCls (t : Tile) : Bool :=
  !(propsContains t.properties "road") &&
    !(propsContains t.properties "construction-point") &&
    propsContains t.properties "start-point"

/-- The condition under which the classifier chain reaches and takes the
`end-point` branch. -/
def isEndCls (t : Tile) : Bool :=
  !(propsContains t.properties "road") &&
    !(propsContains t.properties "construction-point") &&
    !(propsContains t.properties "start-point") &&
    propsContains t.properties "end-point"

theorem classifyStep_roads (s : ClassifierState) (t : Tile) :
    (classifyStep s t).roads =
      if isRoadKey t = true then s.roads ++ [t.id] else s.roads := by
  unfold classifyStep isRoadKey
  by_cases h1 : propsContains t.properties "road" = true <;>
    by_cases h2 : propsContains t.properties "construction-point" = true <;>
      by_cases h3 : propsContains t.properties "start-point" = true <;>
        by_cases h4 : propsContains t.properties "end-point" = true <;>
          simp [h1, h2, h3, h4]

theorem classifyStep_start_point (s : ClassifierState) (t : Tile) :
    (classifyStep s t).start_point =
      if isStartCls t = true then some t.id else s.start_point := by
  unfold classifyStep isStartCls
  by_cases h1 : propsContains t.properties "road" = true <;>
    by_cases h2 : propsContains t.properties "construction-point" = true <;>
      by_cases h3 : propsContains t.properties "start-point" = true <;>
        by_cases h4 : propsContains t.properties "end-point" = true <;>
          simp [h1, h2, h3, h4]

theorem classifyStep_end_point (s : ClassifierState) (t : Tile) :
    (classifyStep s t).end_point =
      if isEndCls t = true then some t.id else s.end_point := by
  unfold classifyStep isEndCls
  by_cases h1 : propsContains t.properties "road" = true <;>
    by_cases h2 : propsContains t.properties "construction-point" = true <;>
      by_cases h3 : propsContains t.properties "start-point" = true <;>
        by_cases h4 : propsContains t.properties "end-point" = true <;>
          simp [h1, h2, h3, h4]

theorem mem_roads_foldl (tiles : List Tile) :
    ∀ (s : ClassifierState) (r : Nat),
      (r ∈ (tiles.foldl classifyStep s).roads ↔
        r ∈ s.roads ∨ ∃ t ∈ tiles, isRoadKey t = true ∧ t.id = r) := by
  induction tiles with
  | nil => intro s r; simp
  | cons t ts ih =>
    intro s r
    rw [List.foldl_cons, ih]
    rw [classifyStep_roads]
    by_cases h : isRoadKey t = true
    · rw [if_pos h]
      simp only [List.mem_append, List.mem_cons, List.not_mem_nil, or_false]
      constructor
      · rintro ((hs | rfl) | ⟨t', ht', hc⟩)
        · exact Or.inl hs
        · exact Or.inr ⟨t, Or.inl rfl, h, rfl⟩
        · exact Or.inr ⟨t', Or.inr ht', hc⟩
      · rintro (hs | ⟨t', (rfl | ht'), hc⟩)
        · exact Or.inl (Or.inl hs)
        · exact Or.inl (Or.inr hc.2.symm)
        · exact Or.inr ⟨t', ht', hc⟩
    · rw [if_neg h]
      simp only [List.mem_cons]
      constructor
      · rintro (hs | ⟨t', ht', hc⟩)
        · exact Or.inl hs
        · exact Or.inr ⟨t', Or.inr ht', hc⟩
      · rintro (hs | ⟨t', (rfl | ht'), hc⟩)
        · exact Or.inl hs
        · exact absurd hc.1 h
        · exact Or.inr ⟨t', ht', hc⟩

theorem start_point_foldl_some (tiles : List Tile) :
    ∀ (s : ClassifierState) (v : Nat),
      (tiles.foldl classifyStep s).start_point = some v →
        s.start_point = some v ∨ ∃ t ∈ tiles, isStartCls t = true ∧ t.id = v := by
  induction tiles with
  | nil => intro s v h; exact Or.inl h
  | cons t ts ih =>
    intro s v h
    rw [List.foldl_cons] at h
    rcases ih (classifyStep s t) v h with h' | ⟨t', ht', hc⟩
    · rw [classifyStep_start_point] at h'
      by_cases hcls : isStartCls t = true
      · rw [if_pos hcls] at h'
        exact Or.inr ⟨t, List.mem_cons_self t ts, hcls, by simpa using h'⟩
      · rw [if_neg hcls] at h'
        exact Or.inl h'
    · exact Or.inr ⟨t', List.mem_cons_of_mem t ht', hc⟩

theorem end_point_foldl_some (tiles : List Tile) :
    ∀ (s : ClassifierState) (v : Nat),
      (tiles.foldl classifyStep s).end_point = some v →
        s.end_point = some v ∨ ∃ t ∈ tiles, isEndCls t = true ∧ t.id = v := by
  induction tiles with
  | nil => intro s v h; exact Or.inl h
  | cons t ts ih =>
    intro s v h
    rw [List.foldl_cons] at h
    rcases ih (classifyStep s t) v h with h' | ⟨t', ht', hc⟩
    · rw [classifyStep_end_point] at h'
      by_cases hcls : isEndCls t = true
      · rw [if_pos hcls] at h'
        exact Or.inr ⟨t, List.mem_cons_self t ts, hcls, by simpa using h'⟩
      · rw [if_neg hcls] at h'
        exact Or.inl h'
    · exact Or.inr ⟨t', List.mem_cons_of_mem t ht', hc⟩

theorem start_point_foldl_isSome (tiles : List Tile) :
    ∀ s : ClassifierState,
      ((tiles.foldl classifyStep s).start_point.isSome = true ↔
        s.start_point.isSome = true ∨ ∃ t ∈ tiles, isStartCls t = true) := by
  induction tiles with
  | nil => intro s; simp
  | cons t ts ih =>
    intro s
    rw [List.foldl_cons, ih]
    rw [classifyStep_start_point]
    by_cases hcls : isStartCls t = true
    · rw [if_pos hcls]
      simp [hcls]
    · rw [if_neg hcls]
      simp only [List.mem_cons]
      constructor
      · rintro (hs | ⟨t', ht', hc⟩)
        · exact Or.inl hs
        · exact Or.inr ⟨t', Or.inr ht', hc⟩
      · rintro (hs | ⟨t', (rfl | ht'), hc⟩)
        · exact Or.inl hs
        · exact absurd hc hcls
        · exact Or.inr ⟨t', ht', hc⟩

theorem end_point_foldl_isSome (tiles : List Tile) :
    ∀ s : ClassifierState,
      ((tiles.foldl classifyStep s).end_point.isSome = true ↔
        s.end_point.isSome = true ∨ ∃ t ∈ tiles, isEndCls t = true) := by
  induction tiles with
  | nil => intro s; simp
  | cons t ts ih =>
    intro s
    rw [List.foldl_cons, ih]
    rw [classifyStep_end_point]
    by_cases hcls : isEndCls t = true
    · rw [if_pos hcls]
      simp [hcls]
    · rw [if_neg hcls]
      simp only [List.mem_cons]
      constructor
      · rintro (hs | ⟨t', ht', hc⟩)
        · exact Or.inl hs
        · exact Or.inr ⟨t', Or.inr ht', hc⟩
      · rintro (hs | ⟨t', (rfl | ht'), hc⟩)
        · exact Or.inl hs
        · exact absurd hc hcls
        · exact Or.inr ⟨t', ht', hc⟩

/-- C5: the classifier derives a road tile's direction mask by reading the
four boolean properties `up`, `right`, `down`, `left` and setting bit0 for
up, bit1 for right, bit2 for down and bit3 for left; a property that is
missing, non-boolean or `false` leaves its bit clear.  In particular a road
tile with `up = true`, `right = false`, `down = true` and no `left` property
yields mask `0b0101 = 5`. -/
theorem c5_road_mask (props : List (String × PropertyValue)) :
    ((roadMask props).testBit 0 =
        decide (propsGet props "up" = some (PropertyValue.boolVal true)) ∧
      (roadMask props).testBit 1 =
        decide (propsGet props "right" = some (PropertyValue.boolVal true)) ∧
      (roadMask props).testBit 2 =
        decide (propsGet props "down" = some (PropertyValue.boolVal true)) ∧
      (roadMask props).testBit 3 =
        decide (propsGet props "left" = some (PropertyValue.boolVal true))) ∧
    roadMask [("up", PropertyValue.boolVal true),
      ("right", PropertyValue.boolVal false),
      ("down", PropertyValue.boolVal true)] = 5 := by
  constructor
  · unfold roadMask
    by_cases h1 : propsGet props "up" = some (PropertyValue.boolVal true) <;>
      by_cases h2 : propsGet props "right" = some (PropertyValue.boolVal true) <;>
        by_cases h3 : propsGet props "down" = some (PropertyValue.boolVal true) <;>
          by_cases h4 : propsGet props "left" = some (PropertyValue.boolVal true) <;>
            simp [h1, h2, h3, h4] <;> decide
  · decide

/-- Modelled from the spec: the first of the four role keys, in the order
`road`, `construction-point`, `start-point`, `end-point`, that the tile's
property map contains. -/
def firstMatchKey (t : Tile) : Option String :=
  ["road", "construction-point", "start-point", "end-point"].find?
    (fun k => propsContains t.properties k)

/-- C6: one classifier iteration is fully determined by the first matching
property key in the order road, construction-point, start-point, end-point:
a tile that carries the `road` key is classified as a road no matter which
later-tested keys it also carries, and similarly down the order; a tile
matching no key leaves the classifier state unchanged. -/
theorem c6_first_match (s : ClassifierState) (t : Tile) :
    classifyStep s t =
      match firstMatchKey t with
      | some k =>
        if k = "road" then
          { s with roads := s.roads ++ [t.id],
                   directions := (t.id, roadMask t.properties) :: s.directions }
        else if k = "construction-point" then
          { s with construction_points := s.construction_points ++ [t.id] }
        else if k = "start-point" then
          { s with start_point := some t.id }
        else if k = "end-point" then
          { s with end_point := some t.id }
        else s
      | none => s := by
  unfold classifyStep firstMatchKey
  by_cases h1 : propsContains t.properties "road" = true <;>
    by_cases h2 : propsContains t.properties "construction-point" = true <;>
      by_cases h3 : propsContains t.properties "start-point" = true <;>
        by_cases h4 : propsContains t.properties "end-point" = true <;>
          simp [h1, h2, h3, h4, List.find?]

/-- C7 amended: the load sequence passes the two start/end assertions iff
some tile is *classified* as the start point and some tile is classified as
the end point — i.e. iff some tile carries the `start-point` key without the
earlier-tested `road`/`construction-point` keys, and some tile carries the
`end-point` key without the three earlier-tested keys.  (Mere presence of
the role key on a tile does not suffice, because an earlier-tested key on
the same tile shadows it; absence of the key everywhere still implies
failure, as the original claim states.) -/
theorem c7_assert_iff (tiles : List Tile) :
    (checkStartEnd tiles).isSome = true ↔
      ((∃ t ∈ tiles, isStartCls t = true) ∧ (∃ t ∈ tiles, isEndCls t = true)) := by
  have h1 : (checkStartEnd tiles).isSome = true ↔
      ((classifyTiles tiles).start_point.isSome = true ∧
        (classifyTiles tiles).end_point.isSome = true) := by
    unfold checkStartEnd
    cases (classifyTiles tiles).start_point <;>
      cases (classifyTiles tiles).end_point <;> simp
  rw [h1]
  unfold classifyTiles
  rw [start_point_foldl_isSome, end_point_foldl_isSome]
  simp

/-- The tileset of the C7 counterexample: tile 0 carries both the `road` and
the `start-point` keys (and is classified as a road, because `road` is
tested first); tile 1 carries the `end-point` key. -/
def cexTiles : List Tile :=
  [⟨0, [("road", PropertyValue.boolVal true),
        ("start-point", PropertyValue.boolVal true)]⟩,
   ⟨1, [("end-point", PropertyValue.boolVal true)]⟩]

/-- C7 counterexample: in `cexTiles` both the `start-point` and the
`end-point` property are present on some tile, yet the load sequence still
aborts (the start assertion fails), refuting the claim's "when both are
present it proceeds without this error". -/
theorem c7_counterexample :
    (∃ t ∈ cexTiles, propsContains t.properties "start-point" = true) ∧
      (∃ t ∈ cexTiles, propsContains t.properties "end-point" = true) ∧
      checkStartEnd cexTiles = none := by
  decide

/-- Under pairwise distinct tile ids, the start tile id found by the
classifier is never a road id: the `binary_search` in the grid builder fails
on it.  (A successful `binary_search` always returns an element of the list,
even on unsorted input, so membership suffices.) -/
theorem start_point_not_road (tiles : List Tile)
    (hnd : (tiles.map Tile.id).Nodup) {sp : Nat}
    (hsp : (classifyTiles tiles).start_point = some sp) :
    binSearchIsOk (classifyTiles tiles).roads sp = false := by
  by_contra hne
  rw [Bool.not_eq_false] at hne
  have hmem := binSearchIsOk_mem hne
  unfold classifyTiles at hmem hsp
  obtain ⟨t, ht, hkey, hid⟩ := by
    have := (mem_roads_foldl tiles ⟨[], [], none, none, []⟩ sp).mp hmem
    simpa using this
  obtain ⟨t', ht', hcls, hid'⟩ := by
    have := start_point_foldl_some tiles ⟨[], [], none, none, []⟩ sp hsp
    simpa using this
  obtain rfl : t = t' :=
    List.inj_on_of_nodup_map hnd ht ht' (by rw [hid, hid'])
  unfold isRoadKey at hkey
  unfold isStartCls at hcls
  rw [hkey] at hcls
  simp at hcls

/-- The end-tile analogue of `start_point_not_road`. -/
theorem end_point_not_road (tiles : List Tile)
    (hnd : (tiles.map Tile.id).Nodup) {ep : Nat}
    (hep : (classifyTiles tiles).end_point = some ep) :
    binSearchIsOk (classifyTiles tiles).roads ep = false := by
  by_contra hne
  rw [Bool.not_eq_false] at hne
  have hmem := binSearchIsOk_mem hne
  unfold classifyTiles at hmem hep
  obtain ⟨t, ht, hkey, hid⟩ := by
    have := (mem_roads_foldl tiles ⟨[], [], none, none, []⟩ ep).mp hmem
    simpa using this
  obtain ⟨t', ht', hcls, hid'⟩ := by
    have := end_point_foldl_some tiles ⟨[], [], none, none, []⟩ ep hep
    simpa using this
  obtain rfl : t = t' :=
    List.inj_on_of_nodup_map hnd ht ht' (by rw [hid, hid'])
  unfold isRoadKey at hkey
  unfold isEndCls at hcls
  rw [hkey] at hcls
  simp at hcls

/-- A successful in-bounds assignment, and the value it leaves at the written
position. -/
theorem roadMapSet_get (m : List (List Nat)) (x y v : Nat)
    (hx : x < m.length) (hy : y < (m.getD x []).length) :
    (roadMapSet m x y v).map (fun rm => mapGet rm x y) = some v := by
  unfold roadMapSet
  rw [dif_pos hx]
  have hrow : m.get ⟨x, hx⟩ = m.getD x [] := by
    rw [List.getD_eq_getElem m [] hx]
    rfl
  rw [if_pos (by rw [hrow]; exact hy)]
  unfold mapGet
  have hx' : x < (m.set x ((m.get ⟨x, hx⟩).set y v)).length := by
    rwa [List.length_set]
  rw [Option.map_some', List.getD_eq_getElem _ [] hx', List.getElem_set_self]
  have hy' : y < ((m.get ⟨x, hx⟩).set y v).length := by
    rw [List.length_set, hrow]
    exact hy
  rw [List.getD_eq_getElem _ 0 hy', List.getElem_set_self]

/-- C2: whenever the grid builder processes a cell whose tile id is the start
or the end tile id found by the classifier, it assigns the full mask
`0b1111 = 15` to that cell — not the direction mask of the tile.  The tileset
is assumed to have pairwise distinct tile ids (as a Tiled tileset does);
under that hypothesis the start/end tile id can never also be classified as a
road (even if the tile carries directional properties), so the full-mask
branch always wins over the road branch. -/
theorem c2_full_mask (tiles : List Tile) (hnd : (tiles.map Tile.id).Nodup)
    (sp ep : Nat)
    (hsp : (classifyTiles tiles).start_point = some sp)
    (hep : (classifyTiles tiles).end_point = some ep)
    (acc : GridAcc) (x y gid : Nat) (hgid : gid ≠ 0)
    (hse : gid - 1 = sp ∨ gid - 1 = ep)
    (hx : x < acc.road_map.length)
    (hy : y < (acc.road_map.getD x []).length) :
    (processTile (classifyTiles tiles) sp ep acc x y gid).map
      (fun a => mapGet a.road_map x y) = some 15 := by
  have hroadsp := start_point_not_road tiles hnd hsp
  have hroadep := end_point_not_road tiles hnd hep
  by_cases hs : gid - 1 = sp
  · simp only [processTile]
    rw [if_neg hgid, hs, hroadsp, if_neg (by simp), if_pos rfl, Option.map_map]
    exact roadMapSet_get acc.road_map x y 15 hx hy
  · have he : gid - 1 = ep := hse.resolve_left hs
    simp only [processTile]
    rw [if_neg hgid, he, hroadep, if_neg (by simp)]
    by_cases hs' : ep = sp
    · rw [if_pos hs', Option.map_map]
      exact roadMapSet_get acc.road_map x y 15 hx hy
    · rw [if_neg hs', if_pos rfl, Option.map_map]
      exact roadMapSet_get acc.road_map x y 15 hx hy

theorem c2_full_mask_witness :
    (processTile
        (classifyTiles [⟨0, [("start-point", PropertyValue.boolVal true)]⟩,
          ⟨1, [("end-point", PropertyValue.boolVal true)]⟩])
        0 1 ⟨[[0]], none, none⟩ 0 0 1).map
      (fun a => mapGet a.road_map 0 0) = some 15 :=
  c2_full_mask
    [⟨0, [("start-point", PropertyValue.boolVal true)]⟩,
      ⟨1, [("end-point", PropertyValue.boolVal true)]⟩]
    (by decide) 0 1 (by decide) (by decide) ⟨[[0]], none, none⟩ 0 0 1
    (by decide) (Or.inl rfl) (by decide) (by decide)

/-- A road tile with id 0 whose only direction is up (mask `0b0001`). -/
def ct0 : Tile :=
  ⟨0, [("road", PropertyValue.boolVal true), ("up", PropertyValue.boolVal true)]⟩

/-- A road tile with id 1 whose only direction is down (mask `0b0100`). -/
def ct1 : Tile :=
  ⟨1, [("road", PropertyValue.boolVal true), ("down", PropertyValue.boolVal true)]⟩

theorem classifyTiles_ct :
    classifyTiles [ct0, ct1] = ⟨[0, 1], [], none, none, [(1, 4), (0, 1)]⟩ := by
  decide

/-- C3 counterexample: a 1×1 map with two layers, the bottom (first-declared)
layer holding road tile 0 (mask 1) and the topmost layer holding road tile 1
(mask 4).  The builder iterates `map.layers.iter().rev()`, so it processes
the topmost layer first and assigns mask 4 to the cell — and then processes
the bottom layer, which overwrites the cell to mask 1.  The final grid holds
the bottom layer's mask, so a lower-priority layer does overwrite a cell
already assigned from a higher-priority layer, refuting the claim. -/
theorem c3_counterexample :
    (processLayer (classifyTiles [ct0, ct1]) 7 8 ⟨[[0]], none, none⟩ [[2]]).map
        (fun a => mapGet a.road_map 0 0) = some 4 ∧
      (buildGrid (classifyTiles [ct0, ct1]) 7 8 1 1 [[[1]], [[2]]]).map
        (fun a => mapGet a.road_map 0 0) = some 1 ∧ (1 : Nat) ≠ 4 := by
  rw [classifyTiles_ct]
  refine ⟨?_, ?_, by decide⟩ <;>
    simp [buildGrid, processLayer, processTile, binSearchIsOk, binSearchGo,
      roadMapSet, dirLookup, mapGet, List.enum, List.enumFrom, List.foldlM,
      List.lookup]

/-- C3 amended: the grid builder iterates the layers in reverse declaration
order with no already-assigned guard, so when several layers supply a
classified tile at the same cell, the layer processed last — the
first-declared, bottom-most one — determines the cell's final mask; a
lower-priority layer does overwrite the value a higher-priority layer
assigned.  Stated for a 1×1 map whose two layers hold the road tile ids `g1`
(bottom, mask `m1`) and `g2` (topmost, mask `m2`): the final cell mask is
`m1`. -/
theorem c3_bottom_layer_wins (cls : ClassifierState) (sp ep g1 g2 m1 m2 : Nat)
    (h1 : binSearchIsOk cls.roads g1 = true)
    (hd1 : dirLookup cls.directions g1 = m1)
    (h2 : binSearchIsOk cls.roads g2 = true)
    (hd2 : dirLookup cls.directions g2 = m2) :
    (buildGrid cls sp ep 1 1 [[[g1 + 1]], [[g2 + 1]]]).map
      (fun a => mapGet a.road_map 0 0) = some m1 := by
  simp [buildGrid, processLayer, processTile, h1, h2, hd1, hd2, roadMapSet,
    mapGet, List.enum, List.enumFrom, List.foldlM]

theorem c3_bottom_layer_wins_witness :
    (buildGrid (classifyTiles [ct0, ct1]) 7 8 1 1 [[[0 + 1]], [[1 + 1]]]).map
      (fun a => mapGet a.road_map 0 0) = some 1 :=
  c3_bottom_layer_wins (classifyTiles [ct0, ct1]) 7 8 0 1 1 4
    (by rw [classifyTiles_ct]; simp [binSearchIsOk, binSearchGo])
    (by rw [classifyTiles_ct]; simp [dirLookup, List.lookup])
    (by rw [classifyTiles_ct]; simp [binSearchIsOk, binSearchGo])
    (by rw [classifyTiles_ct]; simp [dirLookup, List.lookup])

/-- C8: the walkability grid is allocated as
`vec![vec![0; map.width]; map.height]` — outer length `height`, inner length
`width` — but every access indexes it as `road_map[x][y]` with
`x < width, y < height`, so on any non-square map the builder's write is out
of bounds.  Concretely, on a 2×1 map (width 2, height 1) with road tiles on
both cells, processing the cell `(x, y) = (1, 0)` — which the claim asserts
to be in bounds — indexes outer position 1 of the length-1 outer vector and
panics; the embedding aborts with `none`. -/
theorem c8_grid_write_oob :
    buildGrid (classifyTiles [ct0]) 7 8 2 1 [[[1, 1]]] = none := by
  have h : classifyTiles [ct0] = ⟨[0], [], none, none, [(0, 1)]⟩ := by decide
  rw [h]
  simp [buildGrid, processLayer, processTile, binSearchIsOk, binSearchGo,
    roadMapSet, dirLookup, List.enum, List.enumFrom, List.foldlM]

end TowerDef
